import Mathlib

/-!
Shallow embedding of the selenium-python test framework core:
`core/waiter/wait.py`, `core/driver/driver_manager.py`,
`core/element/conditions.py`, `core/element/locators.py`,
`core/element/elements.py`.

Python exceptions are modelled by an explicit kind enumeration with the
selenium subclass relation; mutable state (driver registry, supplier
closures, the wall clock) is passed explicitly: the clock is a map from
reading index to a rational time, and a polling supplier is a finite
trace of outcomes, one per call.
-/

namespace SeleniumFw

/-- Exception classes that appear in the embedded code.
`noSuchElement`, `staleElementReference` and `timeoutExc` are selenium
subclasses of `webDriverExc`; `assertionError` and `otherError` are not. -/
inductive ExcKind where
  | assertionError
  | webDriverExc
  | noSuchElement
  | staleElementReference
  | timeoutExc
  | otherError
  deriving DecidableEq, Repr

/-- `isinstance(e, c)` for the classes above: identity, or membership in the
`WebDriverException` subtree. -/
def ExcKind.isinstance (e c : ExcKind) : Bool :=
  e == c ||
    (c == .webDriverExc &&
      (e == .noSuchElement || e == .staleElementReference || e == .timeoutExc))

/-- One call of a polled supplier: it either returns a value or raises. -/
inductive SupplierStep (α : Type) where
  | ret (v : α)
  | exc (e : ExcKind)
  deriving DecidableEq, Repr

/-- Outcome of one `take_screenshot(path)` call. -/
inductive ShotOutcome where
  | ok (saved : Bool)
  | exc (e : ExcKind)
  deriving DecidableEq, Repr

/-- The data carried by `TimeoutErrorWithScreenShot`: the components of the
formatted message plus the screenshot path attribute. -/
structure TimeoutInfo where
  elapsed : ℚ
  polls : ℕ
  detail : String
  lastError : Option ExcKind
  screenshotPath : Option String
  deriving DecidableEq, Repr

/-- Result of a `Waiter.until` call. `exhausted` marks a run that consumed
the whole modelled supplier trace without exiting; it never occurs under
the theorems' hypotheses. -/
inductive UntilResult (α : Type) where
  | value (v : α) (polls : ℕ)
  | raised (e : ExcKind) (polls : ℕ)
  | timeoutError (info : TimeoutInfo)
  | exhausted
  deriving DecidableEq, Repr

/-- Exit state of the polling loop inside `Waiter.until`. -/
inductive LoopExit (α : Type) where
  | value (v : α) (polls : ℕ)
  | raised (e : ExcKind) (polls : ℕ)
  | timedOut (polls : ℕ) (lastExc : Option ExcKind)
  | starved
  deriving DecidableEq, Repr

/-- `Waiter(timeout_s, poll_s, ...)`: the `screen_dir` and the ignored
`_clock` argument play no part in control flow and are omitted. -/
structure Waiter where
  timeout_s : ℚ
  poll_s : ℚ
  deriving DecidableEq, Repr

/-- `if ignored_exceptions and isinstance(e, tuple(ignored_exceptions))`:
`None` and the empty tuple are falsy, otherwise an isinstance check
against each listed class. -/
def isIgnoredExc (ignored : Option (List ExcKind)) (e : ExcKind) : Bool :=
  match ignored with
  | none => false
  | some l => !l.isEmpty && l.any (fun c => e.isinstance c)

/-- Default `ignored_exceptions` of `Waiter.until`. -/
def defaultIgnored : Option (List ExcKind) :=
  some [.noSuchElement, .staleElementReference]

/-- The `while True` loop of `Waiter.until`: poll counter incremented, the
supplier called; a truthy value returns, a raised exception is remembered
if ignored and re-raised otherwise; then the deadline check (clock reading
`polls` against `endT`) and, if time remains, a sleep and the next
iteration. -/
def untilLoop {α : Type} (truthy : α → Bool) (ign : ExcKind → Bool)
    (clock : ℕ → ℚ) (endT : ℚ) :
    List (SupplierStep α) → ℕ → Option ExcKind → LoopExit α
  | [], _, _ => .starved
  | step :: rest, polls, lastExc =>
    match step with
    | .ret v =>
      if truthy v then .value v (polls + 1)
      else if endT ≤ clock (polls + 1) then .timedOut (polls + 1) lastExc
      else untilLoop truthy ign clock endT rest (polls + 1) lastExc
    | .exc e =>
      if ign e then
        if endT ≤ clock (polls + 1) then .timedOut (polls + 1) (some e)
        else untilLoop truthy ign clock endT rest (polls + 1) (some e)
      else .raised e (polls + 1)

/-- `Waiter.until(supplier, on_timeout, take_screenshot, ignored_exceptions)`.
`clock n` is the `n`-th `time.time()` reading: reading 0 computes the
deadline, reading `p` is the check after poll `p`.  On deadline expiry the
screenshot callback runs first (only `WebDriverException`s are swallowed),
then `on_timeout()` builds the diagnostic (it may itself raise), and the
structured timeout error is raised. -/
def Waiter.until {α : Type} (w : Waiter) (clock : ℕ → ℚ)
    (steps : List (SupplierStep α)) (truthy : α → Bool)
    (onTimeout : ℕ → Except ExcKind String)
    (takeScreenshot : Option ShotOutcome) (shotPath : String)
    (ignored : Option (List ExcKind)) : UntilResult α :=
  let endT := clock 0 + max 0 w.timeout_s
  match untilLoop truthy (isIgnoredExc ignored) clock endT steps 0 none with
  | .value v p => .value v p
  | .raised e p => .raised e p
  | .starved => .exhausted
  | .timedOut polls lastExc =>
    let shotResult : Except ExcKind (Option String) :=
      match takeScreenshot with
      | none => .ok none
      | some (.ok saved) => .ok (if saved then some shotPath else none)
      | some (.exc e) =>
        if e.isinstance .webDriverExc then .ok none else .error e
    match shotResult with
    | .error e => .raised e polls
    | .ok screenshotPath =>
      match onTimeout polls with
      | .error e => .raised e polls
      | .ok detail =>
        .timeoutError
          { elapsed := max 0 w.timeout_s
            polls := polls
            detail := detail
            lastError := lastExc
            screenshotPath := screenshotPath }

/-- Screenshot outcomes the timeout handler swallows: a boolean return, or a
raised exception caught by the `except WebDriverException` clause. -/
def ShotOutcome.nonMasking : ShotOutcome → Bool
  | .ok _ => true
  | .exc e => e.isinstance .webDriverExc

/-- The `screenshot_path` recorded by the timeout handler for a swallowed
screenshot outcome. -/
def ShotOutcome.pathResult (s : ShotOutcome) (path : String) : Option String :=
  match s with
  | .ok saved => if saved then some path else none
  | .exc _ => none

/-- Registry key `(process_id, thread_id, context_id)` of `DriverManager`. -/
abbrev CtxKey := ℕ × ℕ × ℕ

/-- WebDriver sessions are identified by an opaque id; identity of ids models
identity of session objects. -/
abbrev Driver := ℕ

/-- Opaque model of `Configuration`. -/
structure Configuration where
  confId : ℕ
  deriving DecidableEq, Repr

/-- `_DriverRecord`: the driver instance together with its configuration. -/
structure DriverRecord where
  driver : Driver
  config : Configuration
  deriving DecidableEq, Repr

/-- `DriverManager._REGISTRY` as an association list keyed by `CtxKey`. -/
abbrev Registry := List (CtxKey × DriverRecord)

/-- `dict.get(key)`. -/
def regGet : Registry → CtxKey → Option DriverRecord
  | [], _ => none
  | (k, r) :: rest, key => if k = key then some r else regGet rest key

/-- `dict.pop(key, None)` (dropping the returned value). -/
def regPop : Registry → CtxKey → Registry
  | [], _ => []
  | (k, r) :: rest, key => if k = key then rest else (k, r) :: regPop rest key

/-- `dict[key] = record`. -/
def regSet : Registry → CtxKey → DriverRecord → Registry
  | [], key, r => [(key, r)]
  | (k, r0) :: rest, key, r =>
    if k = key then (key, r) :: rest else (k, r0) :: regSet rest key r

/-- `DriverManager.get_driver` under the registry lock.  `is_alive` is the
liveness probe (`driver.current_url` succeeding) at the time of this call;
`created` is the session `_create_driver` would return.  A live registered
session is returned as-is; a dead one is quit (no registry effect beyond the
pop) and replaced; a missing one is created and installed. -/
def DriverManager.get_driver (is_alive : Driver → Bool) (created : Driver)
    (cfg : Configuration) (key : CtxKey) (reg : Registry) : Driver × Registry :=
  match regGet reg key with
  | some rec =>
    if is_alive rec.driver then (rec.driver, reg)
    else
      let reg2 := regPop reg key
      (created, regSet reg2 key ⟨created, cfg⟩)
  | none => (created, regSet reg key ⟨created, cfg⟩)

/-- Model of a web element handle. -/
abbrev Elem := ℕ

/-- Result of one predicate evaluation on an element: a boolean, or a raised
exception. -/
inductive PredResult where
  | ok (b : Bool)
  | exc (e : ExcKind)
  deriving DecidableEq, Repr

/-- `Condition` dataclass: a named predicate (the optional `explain` field
plays no role in the claims). -/
structure Condition where
  name : String
  predicate : Elem → PredResult

/-- `Condition.test(el)`: evaluate the predicate; only
`StaleElementReferenceException` is caught and turned into `False`. -/
def Condition.test (c : Condition) (el : Elem) : PredResult :=
  match c.predicate el with
  | .ok b => .ok b
  | .exc e =>
    if e.isinstance .staleElementReference then .ok false else .exc e

/-- Strategy constants of `selenium.webdriver.common.by.By`. -/
def By.XPATH : String := "xpath"

/-- `By.CSS_SELECTOR`. -/
def By.CSS_SELECTOR : String := "css selector"

/-- `By.ID`. -/
def By.ID : String := "id"

/-- `Locator` dataclass.  The recursive `parent` field makes it an inductive
type; accessors below mirror the dataclass fields (`by` is a Lean keyword,
so that field is called `by_str`). -/
inductive Locator where
  | mk (by_str : String) (value : String) (desc : Option String)
      (parent : Option Locator)
  deriving Repr

/-- Field `by`. -/
def Locator.by_str : Locator → String
  | .mk b _ _ _ => b

/-- Field `value`. -/
def Locator.value : Locator → String
  | .mk _ v _ _ => v

/-- Field `desc`. -/
def Locator.desc : Locator → Option String
  | .mk _ _ d _ => d

/-- Field `parent`. -/
def Locator.parent : Locator → Option Locator
  | .mk _ _ _ p => p

/-- `Locator.with_desc`: `if not desc: return self` (None and the empty
string are falsy), else `Locator(self.by, self.value, desc)` — the
constructor call passes no `parent`, which therefore defaults to `None`. -/
def Locator.with_desc (l : Locator) (desc : Option String) : Locator :=
  match desc with
  | none => l
  | some d => if d = "" then l else .mk l.by_str l.value (some d) none

/-- Body of the `_condition_checker` closure in `Element.should`: resolve
plus evaluation of all conditions; `NoSuchElementException` and
`StaleElementReferenceException` are caught and yield `False`, any other
exception escapes the closure. -/
def conditionCheckerStep (r : Except ExcKind Bool) : SupplierStep Bool :=
  match r with
  | .ok b => .ret b
  | .error e =>
    if e.isinstance .noSuchElement || e.isinstance .staleElementReference then
      .ret false
    else .exc e

/-- Result of `Element.should`. -/
inductive ShouldResult where
  | assertionFailed
  | selfNoWait
  | selfOk (polls : ℕ)
  | raised (e : ExcKind) (polls : ℕ)
  | timeoutError (info : TimeoutInfo)
  | exhausted
  deriving DecidableEq, Repr

/-- `Element.should(*conditions, timeout_ms)`.  `checks` is the trace of
`_condition_checker` body outcomes, one per poll; `onTimeoutDetail` is the
`_on_timeout` diagnostic builder.  Mirrors the source: a truthy
`timeout_ms` overrides the timeout (`0` is falsy and keeps the default),
the `assert timeout_s > 0` raises `AssertionError` otherwise, no
conditions short-circuits to returning `self`, a temporary `Waiter` is
built when `timeout_ms is not None`, and `until` runs with no screenshot
callback and the default ignored exceptions. -/
def Element.should (waiter : Waiter) (conditionNames : List String)
    (timeout_ms : Option ℚ) (clock : ℕ → ℚ)
    (checks : List (Except ExcKind Bool))
    (onTimeoutDetail : ℕ → Except ExcKind String) : ShouldResult :=
  let timeout_s : ℚ :=
    match timeout_ms with
    | some ms => if ms ≠ 0 then ms / 1000 else waiter.timeout_s
    | none => waiter.timeout_s
  if ¬ 0 < timeout_s then .assertionFailed
  else if conditionNames.isEmpty then .selfNoWait
  else
    let temp_wait : Waiter :=
      match timeout_ms with
      | some _ => ⟨timeout_s, waiter.poll_s⟩
      | none => waiter
    match temp_wait.until clock (checks.map conditionCheckerStep) id
        onTimeoutDetail none "" defaultIgnored with
    | .value _ p => .selfOk p
    | .raised e p => .raised e p
    | .timeoutError i => .timeoutError i
    | .exhausted => .exhausted

/-- `Element.should_be(*conditions, timeout_ms)`: delegates to `should`
with the same arguments. -/
def Element.should_be (waiter : Waiter) (conditionNames : List String)
    (timeout_ms : Option ℚ) (clock : ℕ → ℚ)
    (checks : List (Except ExcKind Bool))
    (onTimeoutDetail : ℕ → Except ExcKind String) : ShouldResult :=
  Element.should waiter conditionNames timeout_ms clock checks onTimeoutDetail

/-- Raw outcome of one `find_elements` call in `Elements._resolve`. -/
inductive ResolveOutcome where
  | found (count : ℕ)
  | raised (e : ExcKind)
  deriving DecidableEq, Repr

/-- `Elements._resolve()`: the freshly queried element list, abstracted to
its length; `NoSuchElementException` and `StaleElementReferenceException`
are caught and give the empty list, other exceptions propagate. -/
def Elements.resolveLen (r : ResolveOutcome) : Except ExcKind ℕ :=
  match r with
  | .found k => .ok k
  | .raised e =>
    if e.isinstance .noSuchElement || e.isinstance .staleElementReference then
      .ok 0
    else .error e

/-- `_supplier` of `should_have_size`: one fresh resolution compared for
exact length `n`. -/
def sizeSupplierStep (n : ℕ) (r : ResolveOutcome) : SupplierStep Bool :=
  match Elements.resolveLen r with
  | .ok k => .ret (k == n)
  | .error e => .exc e

/-- Diagnostic text of `should_have_size`'s `_on_timeout`. -/
def sizeDetail (name : String) (n actual : ℕ) (locStr : String) : String :=
  "Elements(\"" ++ name ++ "\") expected size=" ++ toString n ++ ", actual="
    ++ toString actual ++ ". Locator=" ++ locStr

/-- `_on_timeout` of `should_have_size`: performs one more fresh resolution
(trace index `polls`, the first index unused by the supplier) and formats
the expected and actual sizes. -/
def sizeOnTimeout (name : String) (n : ℕ) (locStr : String)
    (resolve : ℕ → ResolveOutcome) (polls : ℕ) : Except ExcKind String :=
  match Elements.resolveLen (resolve polls) with
  | .ok actual => .ok (sizeDetail name n actual locStr)
  | .error e => .error e

/-- Effective timeout of `should_have_size`: `timeout_ms/1000.0 if
timeout_ms is not None else self.waiter.timeout_s`. -/
def shsTimeoutS (waiter : Waiter) (timeout_ms : Option ℚ) : ℚ :=
  match timeout_ms with
  | some ms => ms / 1000
  | none => waiter.timeout_s

/-- `Elements.should_have_size(n, timeout_ms)`: builds the temporary waiter
when `timeout_ms is not None` and polls `_supplier` against fresh
resolutions (`resolve i` is the outcome of the `i`-th resolution;
`numPolls` bounds the modelled trace); no screenshot callback is passed. -/
def Elements.should_have_size (name locStr : String) (waiter : Waiter)
    (n : ℕ) (timeout_ms : Option ℚ) (clock : ℕ → ℚ)
    (resolve : ℕ → ResolveOutcome) (numPolls : ℕ) : UntilResult Bool :=
  let temp_waiter : Waiter :=
    match timeout_ms with
    | some _ => ⟨shsTimeoutS waiter timeout_ms, waiter.poll_s⟩
    | none => waiter
  temp_waiter.until clock
    ((List.range numPolls).map (fun i => sizeSupplierStep n (resolve i))) id
    (sizeOnTimeout name n locStr resolve) none "" defaultIgnored

/-- Single-quote character. -/
def squote : Char := Char.ofNat 39

/-- Double-quote character. -/
def dquote : Char := Char.ofNat 34

/-- Backslash character. -/
def bslash : Char := Char.ofNat 92

/-- Opening brace. -/
def lbrace : Char := Char.ofNat 123

/-- Closing brace. -/
def rbrace : Char := Char.ofNat 125

/-- Python `str.split(c)` for a one-character separator: keeps empty
chunks, always returns at least one chunk. -/
def splitOnChar (c : Char) : List Char → List (List Char)
  | [] => [[]]
  | x :: xs =>
    match splitOnChar c xs with
    | [] => [[]]
    | h :: t => if x = c then [] :: h :: t else (x :: h) :: t

/-- Python `sep.join(parts)`. -/
def joinSep (sep : List Char) : List (List Char) → List Char
  | [] => []
  | [x] => x
  | x :: y :: t => x ++ sep ++ joinSep sep (y :: t)

/-- A single-quoted XPath literal piece, `f"'{chunks}'"`. -/
def qlit (ch : List Char) : List Char :=
  [squote] ++ ch ++ [squote]

/-- The `parts` list built by `_xpath_literal`'s loop: each chunk
single-quoted, interleaved with the double-quoted single quote `'"\'"'`;
the caller drops the trailing separator. -/
def xpathParts : List (List Char) → List (List Char)
  | [] => []
  | ch :: t => qlit ch :: [dquote, squote, dquote] :: xpathParts t

/-- `_xpath_literal(s)`: single-quote the string when it has no single
quote, double-quote it when it has no double quote, otherwise build
`concat(...)` from the single-quote-split chunks. -/
def xpathLiteralL (s : List Char) : List Char :=
  if squote ∉ s then [squote] ++ s ++ [squote]
  else if dquote ∉ s then [dquote] ++ s ++ [dquote]
  else
    "concat(".data
      ++ joinSep [','] ((xpathParts (splitOnChar squote s)).dropLast)
      ++ [')']

/-- One-character-source `str.replace`, the building block of
`_css_attr_value`. -/
def expandChar (f : Char → List Char) (s : List Char) : List Char :=
  (s.map f).flatten

/-- `_css_attr_value(s)`: `s.replace("\\", "\\\\").replace('"', '\\"')`. -/
def cssAttrValueL (s : List Char) : List Char :=
  expandChar (fun c => if c = dquote then [bslash, dquote] else [c])
    (expandChar (fun c => if c = bslash then [bslash, bslash] else [c]) s)

/-- Consume characters up to (and including) the next occurrence of `q`,
returning the consumed prefix and the remainder; `none` when `q` is
missing. -/
def takeUntil (q : Char) : List Char → Option (List Char × List Char)
  | [] => none
  | x :: xs =>
    if x = q then some ([], xs)
    else
      match takeUntil q xs with
      | none => none
      | some (c, r) => some (x :: c, r)

/-- Parse one XPath string literal (single- or double-quoted); returns its
denoted string and the remaining input. -/
def parseLiteral : List Char → Option (List Char × List Char)
  | [] => none
  | x :: xs =>
    if x = squote then takeUntil squote xs
    else if x = dquote then takeUntil dquote xs
    else none

/-- Parse a non-empty comma-separated sequence of XPath string literals,
returning the concatenation of their denoted strings; `fuel` bounds the
number of literals. -/
def parseArgs : ℕ → List Char → Option (List Char × List Char)
  | 0, _ => none
  | fuel + 1, cs =>
    match parseLiteral cs with
    | none => none
    | some (v, rest) =>
      match rest with
      | [] => some (v, [])
      | c :: rest2 =>
        if c = ',' then
          match parseArgs fuel rest2 with
          | none => none
          | some (v2, r) => some (v ++ v2, r)
        else some (v, rest)

/-- Evaluate an XPath string-literal expression: either a plain quoted
literal or `concat(lit, ..., lit)`; returns the denoted string exactly when
the whole input is a syntactically valid such expression. -/
def evalXPathLiteral (cs : List Char) : Option (List Char) :=
  if cs.take 7 = "concat(".data then
    match parseArgs (cs.length + 1) (cs.drop 7) with
    | some (v, [c]) => if c = ')' then some v else none
    | _ => none
  else
    match parseLiteral cs with
    | some (v, []) => some v
    | _ => none

/-- Keyword-argument lookup for the `str.format` model. -/
def lookupKw (key : List Char) : List (List Char × List Char) → Option (List Char)
  | [] => none
  | (k, v) :: t => if k = key then some v else lookupKw key t

/-- Python `template.format(**kwargs)` restricted to plain `{name}`
placeholders: literal characters pass through, `{name}` is replaced by the
bound value; a placeholder that is unterminated or unbound fails (Python
raises); `fuel` bounds the scan. -/
def pyFormatAux (kw : List (List Char × List Char)) :
    ℕ → List Char → Option (List Char)
  | 0, cs =>
    match cs with
    | [] => some []
    | _ :: _ => none
  | fuel + 1, cs =>
    match cs with
    | [] => some []
    | c :: cs2 =>
      if c = lbrace then
        match takeUntil rbrace cs2 with
        | none => none
        | some (key, rest) =>
          match lookupKw key kw with
          | none => none
          | some v =>
            match pyFormatAux kw fuel rest with
            | none => none
            | some out => some (v ++ out)
      else
        match pyFormatAux kw fuel cs2 with
        | none => none
        | some out => some (c :: out)

/-- `template.format(**kwargs)`. -/
def pyFormat (kw : List (List Char × List Char)) (cs : List Char) :
    Option (List Char) :=
  pyFormatAux kw cs.length cs

/-- `Locator.format(**kwargs)`: empty kwargs returns `self`; for the XPath
strategy every value is escaped with `_xpath_literal`, otherwise with
`_css_attr_value`; the template substitution happens on `self.value`, and
`desc` and `parent` are carried over. -/
def Locator.format (l : Locator) (kwargs : List (List Char × List Char)) :
    Option Locator :=
  if kwargs.isEmpty then some l
  else if l.by_str = By.XPATH then
    match pyFormat (kwargs.map (fun p => (p.1, xpathLiteralL p.2))) l.value.data with
    | none => none
    | some nv => some (.mk l.by_str (String.mk nv) l.desc l.parent)
  else
    match pyFormat (kwargs.map (fun p => (p.1, cssAttrValueL p.2))) l.value.data with
    | none => none
    | some nv => some (.mk l.by_str (String.mk nv) l.desc l.parent)

/-- Absorption lemma for the polling loop: a block of ignored exceptions is
skipped (remembering the last one) while the deadline has not passed, and a
following truthy return exits with the accumulated poll count. -/
theorem untilLoop_absorb {α : Type} (truthy : α → Bool) (ign : ExcKind → Bool)
    (clock : ℕ → ℚ) (endT : ℚ) :
    ∀ (exs : List ExcKind) (polls : ℕ) (lastExc : Option ExcKind) (v : α)
      (rest : List (SupplierStep α)),
      (∀ e ∈ exs, ign e = true) →
      (∀ i, i < exs.length → clock (polls + i + 1) < endT) →
      truthy v = true →
      untilLoop truthy ign clock endT (exs.map .exc ++ .ret v :: rest) polls lastExc
        = .value v (polls + exs.length + 1)
  | [], polls, lastExc, v, rest, _, _, hv => by
      simp [untilLoop, hv]
  | e :: exs, polls, lastExc, v, rest, hign, hclock, hv => by
      have he : ign e = true := hign e (by simp)
      have hc0 : clock (polls + 1) < endT := by
        have := hclock 0 (by simp)
        simpa using this
      have hrec := untilLoop_absorb truthy ign clock endT exs (polls + 1) (some e) v rest
        (fun x hx => hign x (by simp [hx]))
        (fun i hi => by
          have := hclock (i + 1) (by simpa using Nat.succ_lt_succ hi)
          have harith : polls + (i + 1) + 1 = polls + 1 + i + 1 := by omega
          simpa [harith] using this)
        hv
      have hnot : ¬ endT ≤ clock (polls + 1) := not_le.mpr hc0
      simp only [List.map_cons, List.cons_append, untilLoop, he, if_true, hnot, if_false,
        List.append_eq]
      rw [hrec]
      congr 1
      simp only [List.length_cons]
      omega

/-- Prefix lemma for the polling loop: falsy returns before the deadline
just advance the poll counter. -/
theorem untilLoop_falsy_prefix {α : Type} (truthy : α → Bool) (ign : ExcKind → Bool)
    (clock : ℕ → ℚ) (endT : ℚ) :
    ∀ (vs : List α) (polls : ℕ) (lastExc : Option ExcKind)
      (rest : List (SupplierStep α)),
      (∀ v ∈ vs, truthy v = false) →
      (∀ i, i < vs.length → clock (polls + i + 1) < endT) →
      untilLoop truthy ign clock endT (vs.map .ret ++ rest) polls lastExc
        = untilLoop truthy ign clock endT rest (polls + vs.length) lastExc
  | [], polls, lastExc, rest, _, _ => by simp
  | v :: vs, polls, lastExc, rest, hvs, hclock => by
      have hv : truthy v = false := hvs v (by simp)
      have hc0 : clock (polls + 1) < endT := by
        have := hclock 0 (by simp)
        simpa using this
      have hrec := untilLoop_falsy_prefix truthy ign clock endT vs (polls + 1) lastExc rest
        (fun x hx => hvs x (by simp [hx]))
        (fun i hi => by
          have := hclock (i + 1) (by simpa using Nat.succ_lt_succ hi)
          have harith : polls + (i + 1) + 1 = polls + 1 + i + 1 := by omega
          simpa [harith] using this)
      have hnot : ¬ endT ≤ clock (polls + 1) := not_le.mpr hc0
      simp only [List.map_cons, List.cons_append, untilLoop, hv, Bool.false_eq_true,
        if_false, hnot, if_true, List.append_eq]
      rw [hrec]
      congr 1
      simp only [List.length_cons]
      omega

/-- C9: with `timeout_s = 0` and a monotone clock, `until` calls the
supplier exactly once (the error records `polls = 1`), then raises the
structured timeout error; no sleep happens before the deadline check. -/
theorem until_zero_timeout_polls_once {α : Type} (poll_s : ℚ) (clock : ℕ → ℚ)
    (hmono : clock 0 ≤ clock 1) (truthy : α → Bool) (v : α)
    (hv : truthy v = false) (rest : List (SupplierStep α))
    (onT : ℕ → Except ExcKind String) (d : String) (hd : onT 1 = .ok d)
    (shotPath : String) (ign : Option (List ExcKind)) :
    Waiter.until ⟨0, poll_s⟩ clock (.ret v :: rest) truthy onT none shotPath ign
      = .timeoutError ⟨0, 1, d, none, none⟩ := by
  have hend : clock 0 + max 0 (0 : ℚ) ≤ clock 1 := by simpa using hmono
  simp [Waiter.until, untilLoop, hv, hend, hd, hmono]

/-- Closed instance of `until_zero_timeout_polls_once` at a concrete falsy
supplier. -/
theorem until_zero_timeout_polls_once_witness :
    Waiter.until (α := Bool) ⟨0, 1⟩ (fun _ => 0) [.ret false] id
        (fun _ => .ok "detail") none "shot.png" defaultIgnored
      = .timeoutError ⟨0, 1, "detail", none, none⟩ :=
  until_zero_timeout_polls_once (1) (fun _ => 0) le_rfl id false rfl []
    (fun _ => .ok "detail") "detail" rfl "shot.png" defaultIgnored

/-- C4: a supplier that raises ignored exceptions on its first K calls, all
before the deadline, then returns a truthy value, makes `until` return that
value after exactly K+1 supplier calls, raising nothing. -/
theorem until_absorbs_ignored_exceptions {α : Type} (w : Waiter) (clock : ℕ → ℚ)
    (exs : List ExcKind) (truthy : α → Bool) (v : α) (hv : truthy v = true)
    (rest : List (SupplierStep α)) (onT : ℕ → Except ExcKind String)
    (shot : Option ShotOutcome) (shotPath : String) (ign : Option (List ExcKind))
    (hign : ∀ e ∈ exs, isIgnoredExc ign e = true)
    (hclock : ∀ i, i < exs.length → clock (i + 1) < clock 0 + max 0 w.timeout_s) :
    Waiter.until w clock (exs.map .exc ++ .ret v :: rest) truthy onT shot shotPath ign
      = .value v (exs.length + 1) := by
  have hloop := untilLoop_absorb truthy (isIgnoredExc ign) clock
    (clock 0 + max 0 w.timeout_s) exs 0 none v rest hign
    (fun i hi => by simpa using hclock i hi) hv
  simp only [Waiter.until, hloop, Nat.zero_add]

/-- Closed instance of `until_absorbs_ignored_exceptions`: two ignored
exceptions then a truthy value, returned after 3 calls. -/
theorem until_absorbs_ignored_exceptions_witness :
    Waiter.until (α := Bool) ⟨4, 1⟩ (fun _ => 0)
        [.exc .noSuchElement, .exc .staleElementReference, .ret true] id
        (fun _ => .ok "detail") none "shot.png" defaultIgnored
      = .value true 3 :=
  until_absorbs_ignored_exceptions ⟨4, 1⟩ (fun _ => 0)
    [.noSuchElement, .staleElementReference] id true rfl []
    (fun _ => .ok "detail") none "shot.png" defaultIgnored
    (by decide) (fun i _ => by norm_num)

/-- C5: when the first exception the supplier raises is not of an ignored
kind (after any number of falsy returns before the deadline), `until`
re-raises it at once: the result is `raised` with the poll count of that
call, independent of the timeout handling and of `on_timeout`. -/
theorem until_raises_non_ignored_immediately {α : Type} (w : Waiter)
    (clock : ℕ → ℚ) (vs : List α) (e : ExcKind) (truthy : α → Bool)
    (rest : List (SupplierStep α)) (onT : ℕ → Except ExcKind String)
    (shot : Option ShotOutcome) (shotPath : String) (ign : Option (List ExcKind))
    (hvs : ∀ v ∈ vs, truthy v = false)
    (hclock : ∀ i, i < vs.length → clock (i + 1) < clock 0 + max 0 w.timeout_s)
    (hnign : isIgnoredExc ign e = false) :
    Waiter.until w clock (vs.map .ret ++ .exc e :: rest) truthy onT shot shotPath ign
      = .raised e (vs.length + 1) := by
  have hloop := untilLoop_falsy_prefix truthy (isIgnoredExc ign) clock
    (clock 0 + max 0 w.timeout_s) vs 0 none (.exc e :: rest) hvs
    (fun i hi => by simpa using hclock i hi)
  simp only [Waiter.until, hloop, Nat.zero_add, untilLoop, hnign, Bool.false_eq_true,
    if_false]

/-- Closed instance of `until_raises_non_ignored_immediately`: one falsy
poll, then a non-ignored exception, re-raised on call 2. -/
theorem until_raises_non_ignored_immediately_witness :
    Waiter.until (α := Bool) ⟨4, 1⟩ (fun _ => 0)
        [.ret false, .exc .otherError, .ret true] id
        (fun _ => .ok "detail") none "shot.png" defaultIgnored
      = .raised .otherError 2 :=
  until_raises_non_ignored_immediately ⟨4, 1⟩ (fun _ => 0) [false] .otherError id
    [.ret true] (fun _ => .ok "detail") none "shot.png" defaultIgnored
    (by decide) (fun i _ => by norm_num) (by decide)

/-- C2 counterexample: with a supplier that times out and a screenshot
callback raising an exception that is not a `WebDriverException`, `until`
propagates the screenshot exception instead of the structured timeout
error: the screenshot failure masks the timeout. -/
theorem until_screenshot_failure_masks_timeout_cx :
    (Waiter.until (α := Bool) ⟨0, 1⟩ (fun _ => 0) [.ret false] id
        (fun _ => .ok "detail") (some (.exc .otherError)) "shot.png" defaultIgnored
      = .raised .otherError 1) ∧
    ∀ info : TimeoutInfo,
      Waiter.until (α := Bool) ⟨0, 1⟩ (fun _ => 0) [.ret false] id
          (fun _ => .ok "detail") (some (.exc .otherError)) "shot.png" defaultIgnored
        ≠ .timeoutError info := by
  have h1 : Waiter.until (α := Bool) ⟨0, 1⟩ (fun _ => 0) [.ret false] id
      (fun _ => .ok "detail") (some (.exc .otherError)) "shot.png" defaultIgnored
      = .raised .otherError 1 := by
    simp [Waiter.until, untilLoop, ExcKind.isinstance]
  refine ⟨h1, fun info h => ?_⟩
  rw [h1] at h
  exact UntilResult.noConfusion h

/-- C2 (amended): when the deadline expires without a truthy value and the
screenshot callback either returns a boolean or raises a
`WebDriverException` (the kinds the handler swallows), `until` still raises
the structured timeout error — the screenshot outcome only determines the
recorded screenshot path, never the raised error. -/
theorem until_timeout_not_masked_by_screenshot {α : Type} (w : Waiter)
    (clock : ℕ → ℚ) (steps : List (SupplierStep α)) (truthy : α → Bool)
    (onT : ℕ → Except ExcKind String) (shotOut : ShotOutcome) (shotPath : String)
    (ign : Option (List ExcKind)) (polls : ℕ) (lastExc : Option ExcKind)
    (hloop : untilLoop truthy (isIgnoredExc ign) clock (clock 0 + max 0 w.timeout_s)
        steps 0 none = .timedOut polls lastExc)
    (hshot : shotOut.nonMasking = true) (d : String) (hd : onT polls = .ok d) :
    Waiter.until w clock steps truthy onT (some shotOut) shotPath ign
      = .timeoutError ⟨max 0 w.timeout_s, polls, d, lastExc,
          shotOut.pathResult shotPath⟩ := by
  cases shotOut with
  | ok saved =>
      simp only [Waiter.until, hloop, hd, ShotOutcome.pathResult]
  | exc e =>
      simp only [ShotOutcome.nonMasking] at hshot
      simp only [Waiter.until, hloop, hd, ShotOutcome.pathResult, hshot, if_true]

/-- Closed instance of `until_timeout_not_masked_by_screenshot`: the
screenshot callback raises a `TimeoutException` (a `WebDriverException`),
and the structured timeout error is still raised with no recorded path. -/
theorem until_timeout_not_masked_by_screenshot_witness :
    Waiter.until (α := Bool) ⟨0, 1⟩ (fun _ => 0) [.ret false] id
        (fun _ => .ok "detail") (some (.exc .timeoutExc)) "shot.png" defaultIgnored
      = .timeoutError ⟨0, 1, "detail", none, none⟩ := by
  have h := until_timeout_not_masked_by_screenshot (α := Bool) ⟨0, 1⟩ (fun _ => 0)
    [.ret false] id (fun _ => .ok "detail") (.exc .timeoutExc) "shot.png"
    defaultIgnored 1 none (by simp [untilLoop]) (by decide) "detail" rfl
  simpa using h

/-- After `get_driver`, the registry maps the key to a record holding the
returned session. -/
theorem get_driver_installs (is_alive : Driver → Bool) (created : Driver)
    (cfg : Configuration) (key : CtxKey) (reg : Registry) :
    ∃ c, regGet (DriverManager.get_driver is_alive created cfg key reg).2 key
      = some ⟨(DriverManager.get_driver is_alive created cfg key reg).1, c⟩ := by
  have hset : ∀ (r : Registry) (rec : DriverRecord),
      regGet (regSet r key rec) key = some rec := by
    intro r rec
    induction r with
    | nil => simp [regSet, regGet]
    | cons p rest ih =>
        by_cases h : p.1 = key
        · simp [regSet, regGet, h]
        · simp [regSet, regGet, h, ih]
  unfold DriverManager.get_driver
  cases hreg : regGet reg key with
  | none => exact ⟨cfg, by simp [hreg, hset]⟩
  | some rec =>
      by_cases halive : is_alive rec.driver
      · exact ⟨rec.config, by simp [hreg, halive, hset]⟩
      · exact ⟨cfg, by simp [hreg, halive, hset]⟩

/-- C1: two sequential `get_driver` calls on the same context key, with no
`quit_driver` in between and the first call's session alive at the second
call, return the identical session and leave the registry unchanged — no
second session is created. -/
theorem get_driver_reuses_live_session (alive1 alive2 : Driver → Bool)
    (new1 new2 : Driver) (cfg1 cfg2 : Configuration) (key : CtxKey)
    (reg : Registry)
    (h : alive2 (DriverManager.get_driver alive1 new1 cfg1 key reg).1 = true) :
    DriverManager.get_driver alive2 new2 cfg2 key
        (DriverManager.get_driver alive1 new1 cfg1 key reg).2
      = ((DriverManager.get_driver alive1 new1 cfg1 key reg).1,
         (DriverManager.get_driver alive1 new1 cfg1 key reg).2) := by
  obtain ⟨c, hc⟩ := get_driver_installs alive1 new1 cfg1 key reg
  set p := DriverManager.get_driver alive1 new1 cfg1 key reg with hp
  rw [DriverManager.get_driver.eq_def, hc]
  simp [h]

/-- Closed instance of `get_driver_reuses_live_session`: starting from an
empty registry, the first call creates session 5 and the second call
returns the same session 5 without touching the registry. -/
theorem get_driver_reuses_live_session_witness :
    DriverManager.get_driver (fun _ => true) 7 ⟨1⟩ (0, 0, 0)
        (DriverManager.get_driver (fun _ => true) 5 ⟨0⟩ (0, 0, 0) []).2
      = ((DriverManager.get_driver (fun _ => true) 5 ⟨0⟩ (0, 0, 0) []).1,
         (DriverManager.get_driver (fun _ => true) 5 ⟨0⟩ (0, 0, 0) []).2) :=
  get_driver_reuses_live_session (fun _ => true) (fun _ => true) 5 7 ⟨0⟩ ⟨1⟩
    (0, 0, 0) [] rfl

/-- C3 counterexample: a predicate that raises `NoSuchElementException`
(an element-not-found exception) is not caught by `Condition.test` — the
exception propagates instead of yielding `false`. -/
theorem condition_test_propagates_not_found_cx :
    Condition.test ⟨"vanished", fun _ => .exc .noSuchElement⟩ 0
        = .exc .noSuchElement ∧
    Condition.test ⟨"vanished", fun _ => .exc .noSuchElement⟩ 0 ≠ .ok false := by
  refine ⟨rfl, fun h => ?_⟩
  exact PredResult.noConfusion (h.symm.trans rfl)

/-- C3 (amended): `Condition.test` turns a raised stale-reference exception
into `false` without propagating it, but any exception that is not a
`StaleElementReferenceException` — including element-not-found — propagates
(the enclosing Waiter, not the Condition, absorbs those by default). -/
theorem condition_test_stale_returns_false :
    (∀ (c : Condition) (el : Elem) (e : ExcKind),
        c.predicate el = .exc e →
        e.isinstance .staleElementReference = true →
        c.test el = .ok false) ∧
    (∀ (c : Condition) (el : Elem) (e : ExcKind),
        c.predicate el = .exc e →
        e.isinstance .staleElementReference = false →
        c.test el = .exc e) := by
  constructor
  · intro c el e hp hs
    simp [Condition.test, hp, hs]
  · intro c el e hp hs
    simp [Condition.test, hp, hs]

/-- Closed instance of `condition_test_stale_returns_false`: a stale
predicate yields `false`; a `NoSuchElementException` predicate propagates. -/
theorem condition_test_stale_returns_false_witness :
    Condition.test ⟨"stale", fun _ => .exc .staleElementReference⟩ 0
        = .ok false ∧
    Condition.test ⟨"gone", fun _ => .exc .noSuchElement⟩ 1
        = .exc .noSuchElement :=
  ⟨condition_test_stale_returns_false.1
      ⟨"stale", fun _ => .exc .staleElementReference⟩ 0 .staleElementReference
      rfl rfl,
    condition_test_stale_returns_false.2
      ⟨"gone", fun _ => .exc .noSuchElement⟩ 1 .noSuchElement rfl rfl⟩

/-- C6 counterexample: `with_desc` on a locator that has a parent returns a
copy whose `parent` is `None` — the parent chain is not preserved
(`Locator(self.by, self.value, desc)` omits the `parent` argument). -/
theorem with_desc_drops_parent_cx :
    ((Locator.mk By.CSS_SELECTOR "li" none
        (some (Locator.mk By.CSS_SELECTOR "ul" (some "list") none))).with_desc
          (some "item")).parent = none ∧
    ((Locator.mk By.CSS_SELECTOR "li" none
        (some (Locator.mk By.CSS_SELECTOR "ul" (some "list") none))).with_desc
          (some "item")).parent ≠
      (Locator.mk By.CSS_SELECTOR "li" none
        (some (Locator.mk By.CSS_SELECTOR "ul" (some "list") none))).parent := by
  refine ⟨rfl, fun h => ?_⟩
  exact Option.noConfusion (h.symm.trans rfl)

/-- C6 (amended): for every locator and non-empty description,
`with_desc` returns a copy with the strategy and value unchanged and the
description updated, but with the `parent` field reset to `None` rather
than preserved. -/
theorem with_desc_updates_desc_keeps_strategy_value (l : Locator) (d : String)
    (hd : ¬ d = "") :
    (l.with_desc (some d)).by_str = l.by_str ∧
    (l.with_desc (some d)).value = l.value ∧
    (l.with_desc (some d)).desc = some d ∧
    (l.with_desc (some d)).parent = none := by
  simp [Locator.with_desc, hd, Locator.by_str, Locator.value, Locator.desc,
    Locator.parent]

/-- Closed instance of `with_desc_updates_desc_keeps_strategy_value` at a
locator with a parent chain. -/
theorem with_desc_updates_desc_keeps_strategy_value_witness :
    ((Locator.mk By.XPATH "//li" (some "old")
        (some (Locator.mk By.CSS_SELECTOR "ul" none none))).with_desc
          (some "fresh")).by_str = By.XPATH ∧
    ((Locator.mk By.XPATH "//li" (some "old")
        (some (Locator.mk By.CSS_SELECTOR "ul" none none))).with_desc
          (some "fresh")).value = "//li" ∧
    ((Locator.mk By.XPATH "//li" (some "old")
        (some (Locator.mk By.CSS_SELECTOR "ul" none none))).with_desc
          (some "fresh")).desc = some "fresh" ∧
    ((Locator.mk By.XPATH "//li" (some "old")
        (some (Locator.mk By.CSS_SELECTOR "ul" none none))).with_desc
          (some "fresh")).parent = none := by
  have h := with_desc_updates_desc_keeps_strategy_value
    (Locator.mk By.XPATH "//li" (some "old")
      (some (Locator.mk By.CSS_SELECTOR "ul" none none))) "fresh" (by decide)
  simpa [Locator.by_str, Locator.value] using h

/-- Splitting `List.range` at an interior index. -/
theorem range_split (j N : ℕ) (h : j < N) :
    List.range N = List.range j ++ j :: List.range' (j + 1) (N - j - 1) := by
  have h1 := List.range'_append 0 j (N - j) 1
  simp only [Nat.zero_add, Nat.one_mul] at h1
  have h2 : N - j + j = N := by omega
  rw [h2] at h1
  rw [List.range_eq_range', List.range_eq_range', ← h1]
  congr 1
  rw [show N - j = (N - j - 1) + 1 from by omega, List.range'_succ]
  simp

/-- The polling loop on a block of falsy boolean returns followed by a
truthy one: exits with the value at the first truthy poll. -/
theorem untilLoop_false_prefix_then_true (ign : ExcKind → Bool) (clock : ℕ → ℚ)
    (endT : ℚ) :
    ∀ (pre : List (SupplierStep Bool)) (polls : ℕ) (lastExc : Option ExcKind)
      (post : List (SupplierStep Bool)),
      (∀ s ∈ pre, s = .ret false) →
      (∀ i, i < pre.length → clock (polls + i + 1) < endT) →
      untilLoop id ign clock endT (pre ++ .ret true :: post) polls lastExc
        = .value true (polls + pre.length + 1)
  | [], polls, lastExc, post, _, _ => by simp [untilLoop]
  | s :: pre, polls, lastExc, post, hpre, hclock => by
      have hs : s = .ret false := hpre s (by simp)
      subst hs
      have hc0 : clock (polls + 1) < endT := by simpa using hclock 0 (by simp)
      have hnot : ¬ endT ≤ clock (polls + 1) := not_le.mpr hc0
      have hrec := untilLoop_false_prefix_then_true ign clock endT pre (polls + 1)
        lastExc post (fun x hx => hpre x (by simp [hx]))
        (fun i hi => by
          have := hclock (i + 1) (by simpa using Nat.succ_lt_succ hi)
          have harith : polls + (i + 1) + 1 = polls + 1 + i + 1 := by omega
          simpa [harith] using this)
      simp only [List.cons_append, untilLoop, id_eq, Bool.false_eq_true, if_false,
        hnot, if_true, List.append_eq]
      rw [hrec]
      congr 1
      simp only [List.length_cons]
      omega

/-- `should_have_size` unfolded to a single `until` call: the temporary
waiter's timeout is `shsTimeoutS` in both the overriding and the default
branch. -/
theorem should_have_size_eq_until (name locStr : String) (waiter : Waiter)
    (n : ℕ) (tms : Option ℚ) (clock : ℕ → ℚ) (resolve : ℕ → ResolveOutcome)
    (N : ℕ) :
    Elements.should_have_size name locStr waiter n tms clock resolve N
      = Waiter.until ⟨shsTimeoutS waiter tms, waiter.poll_s⟩ clock
          ((List.range N).map (fun i => sizeSupplierStep n (resolve i))) id
          (sizeOnTimeout name n locStr resolve) none "" defaultIgnored := by
  cases tms <;> rfl

/-- C8: `should_have_size(n)` succeeds at the first poll whose fresh
resolution has length exactly `n`, whatever lengths earlier polls saw
(transient resolution failures count as length 0 through
`Elements.resolveLen`); and when the polls exhaust the deadline without
ever reaching `n`, it raises the structured timeout error whose diagnostic
is exactly the message naming the expected size `n` and the freshly
re-queried actual count. -/
theorem should_have_size_fresh_success_and_timeout :
    (∀ (name locStr : String) (waiter : Waiter) (n : ℕ) (tms : Option ℚ)
        (clock : ℕ → ℚ) (resolve : ℕ → ResolveOutcome) (N j : ℕ),
        j < N →
        (∀ i, i < j → ∃ k, Elements.resolveLen (resolve i) = .ok k ∧ k ≠ n) →
        Elements.resolveLen (resolve j) = .ok n →
        (∀ i, i < j →
          clock (i + 1) < clock 0 + max 0 (shsTimeoutS waiter tms)) →
        Elements.should_have_size name locStr waiter n tms clock resolve N
          = .value true (j + 1)) ∧
    (∀ (name locStr : String) (waiter : Waiter) (n : ℕ) (tms : Option ℚ)
        (clock : ℕ → ℚ) (resolve : ℕ → ResolveOutcome) (N polls : ℕ)
        (lastExc : Option ExcKind) (actual : ℕ),
        untilLoop id (isIgnoredExc defaultIgnored) clock
            (clock 0 + max 0 (shsTimeoutS waiter tms))
            ((List.range N).map (fun i => sizeSupplierStep n (resolve i)))
            0 none = .timedOut polls lastExc →
        Elements.resolveLen (resolve polls) = .ok actual →
        Elements.should_have_size name locStr waiter n tms clock resolve N
          = .timeoutError ⟨max 0 (shsTimeoutS waiter tms), polls,
              sizeDetail name n actual locStr, lastExc, none⟩) := by
  constructor
  · intro name locStr waiter n tms clock resolve N j hj hbefore hstep hclock
    have hgj : sizeSupplierStep n (resolve j) = .ret true := by
      simp [sizeSupplierStep, hstep]
    have hsteps : (List.range N).map (fun i => sizeSupplierStep n (resolve i))
        = (List.range j).map (fun i => sizeSupplierStep n (resolve i))
          ++ .ret true
            :: (List.range' (j + 1) (N - j - 1)).map
                (fun i => sizeSupplierStep n (resolve i)) := by
      rw [range_split j N hj]
      simp [hgj]
    have hg : ∀ s ∈ (List.range j).map (fun i => sizeSupplierStep n (resolve i)),
        s = .ret false := by
      intro s hs
      obtain ⟨i, hi, rfl⟩ := List.mem_map.mp hs
      obtain ⟨k, hk, hkn⟩ := hbefore i (List.mem_range.mp hi)
      simp [sizeSupplierStep, hk, hkn]
    have hloop := untilLoop_false_prefix_then_true (isIgnoredExc defaultIgnored)
      clock (clock 0 + max 0 (shsTimeoutS waiter tms))
      ((List.range j).map (fun i => sizeSupplierStep n (resolve i))) 0 none
      ((List.range' (j + 1) (N - j - 1)).map
        (fun i => sizeSupplierStep n (resolve i)))
      hg (fun i hi => by
        have hij : i < j := by simpa using hi
        simpa using hclock i hij)
    rw [should_have_size_eq_until]
    simp only [Waiter.until, hsteps, hloop]
    simp

  · intro name locStr waiter n tms clock resolve N polls lastExc actual hloop hres
    rw [should_have_size_eq_until]
    simp only [Waiter.until, hloop]
    simp [sizeOnTimeout, hres]

/-- Closed instance of `should_have_size_fresh_success_and_timeout`: a list
that grows from 1 to 3 elements satisfies `should_have_size 3` on the
second fresh poll; a list stuck at 1 element with an expired deadline
raises the timeout error whose message names expected size 3 and actual
count 1. -/
theorem should_have_size_fresh_success_and_timeout_witness :
    Elements.should_have_size "lst" "loc" ⟨4, 1⟩ 3 none (fun _ => 0)
        (fun i => if i = 0 then .found 1 else .found 3) 2 = .value true 2 ∧
    Elements.should_have_size "lst" "loc" ⟨4, 1⟩ 3 (some 0) (fun _ => 0)
        (fun _ => .found 1) 1
      = .timeoutError ⟨0, 1,
          "Elements(\"lst\") expected size=3, actual=1. Locator=loc",
          none, none⟩ := by
  constructor
  · exact should_have_size_fresh_success_and_timeout.1 "lst" "loc" ⟨4, 1⟩ 3 none
      (fun _ => 0) (fun i => if i = 0 then .found 1 else .found 3) 2 1
      (by omega)
      (fun i hi => ⟨1, by simp [Elements.resolveLen, show i = 0 from by omega],
        by omega⟩)
      (by simp [Elements.resolveLen])
      (fun i _ => by norm_num [shsTimeoutS])
  · have h := should_have_size_fresh_success_and_timeout.2 "lst" "loc" ⟨4, 1⟩ 3
      (some 0) (fun _ => 0) (fun _ => .found 1) 1 1 none 1
      (by simp [untilLoop, sizeSupplierStep, Elements.resolveLen, shsTimeoutS])
      (by simp [Elements.resolveLen])
    simpa [shsTimeoutS, sizeDetail] using h

/-- C10: `should_be(*conditions, timeout_ms)` delegates to
`should(*conditions, timeout_ms)` with identical arguments, so on every
input — waiter, conditions, optional timeout, clock, checker trace and
diagnostic builder — both produce the same result, raise the same errors
and perform the same waiting. -/
theorem should_be_extensionally_equals_should :
    ∀ (waiter : Waiter) (conditionNames : List String) (timeout_ms : Option ℚ)
      (clock : ℕ → ℚ) (checks : List (Except ExcKind Bool))
      (onT : ℕ → Except ExcKind String),
      Element.should_be waiter conditionNames timeout_ms clock checks onT
        = Element.should waiter conditionNames timeout_ms clock checks onT :=
  fun _ _ _ _ _ _ => rfl

/-- `takeUntil` consumes exactly a `q`-free prefix up to the first `q`. -/
theorem takeUntil_append (q : Char) :
    ∀ (a r : List Char), q ∉ a → takeUntil q (a ++ q :: r) = some (a, r)
  | [], r, _ => by simp [takeUntil]
  | x :: a, r, h => by
      have hx : ¬ x = q := fun hh => h (by simp [hh])
      have hrec := takeUntil_append q a r (fun hh => h (by simp [hh]))
      simp [takeUntil, hx, hrec]

/-- `splitOnChar` always yields at least one chunk. -/
theorem splitOnChar_ne_nil (c : Char) : ∀ s : List Char, splitOnChar c s ≠ []
  | [] => by simp [splitOnChar]
  | x :: xs => by
      cases hs : splitOnChar c xs with
      | nil => exact absurd hs (splitOnChar_ne_nil c xs)
      | cons h t => by_cases hx : x = c <;> simp [splitOnChar, hs, hx]

/-- No chunk of `splitOnChar c s` contains the separator. -/
theorem splitOnChar_not_mem (c : Char) :
    ∀ (s : List Char), ∀ ch ∈ splitOnChar c s, c ∉ ch
  | [], ch, hch => by
      simp only [splitOnChar, List.mem_singleton] at hch
      simp [hch]
  | x :: xs, ch, hch => by
      cases hs : splitOnChar c xs with
      | nil => exact absurd hs (splitOnChar_ne_nil c xs)
      | cons h t =>
          simp only [splitOnChar, hs] at hch
          by_cases hx : x = c
          · simp only [hx, if_pos rfl] at hch
            rcases List.mem_cons.mp hch with rfl | hch2
            · simp
            · exact splitOnChar_not_mem c xs ch (by rw [hs]; exact hch2)
          · simp only [if_neg hx] at hch
            rcases List.mem_cons.mp hch with rfl | hch2
            · intro hmem
              rcases List.mem_cons.mp hmem with hcx | hcx
              · exact hx hcx.symm
              · exact splitOnChar_not_mem c xs h (by rw [hs]; simp) hcx
            · exact splitOnChar_not_mem c xs ch
                (by rw [hs]; exact List.mem_cons_of_mem _ hch2)

/-- Pulling a leading character out of the first joined chunk. -/
theorem joinSep_cons_cons (sep : List Char) (x : Char) (h : List Char)
    (t : List (List Char)) :
    joinSep sep ((x :: h) :: t) = x :: joinSep sep (h :: t) := by
  cases t <;> simp [joinSep]

/-- `joinSep` on a cons with a nonempty tail inserts the separator. -/
theorem joinSep_cons_of_ne_nil (sep a : List Char) (R : List (List Char))
    (h : R ≠ []) :
    joinSep sep (a :: R) = a ++ sep ++ joinSep sep R := by
  cases R with
  | nil => exact absurd rfl h
  | cons b t => simp [joinSep]

/-- Joining the chunks of a split with the separator restores the string. -/
theorem joinSep_splitOnChar (c : Char) :
    ∀ s : List Char, joinSep [c] (splitOnChar c s) = s
  | [] => by simp [splitOnChar, joinSep]
  | x :: xs => by
      cases hs : splitOnChar c xs with
      | nil => exact absurd hs (splitOnChar_ne_nil c xs)
      | cons h t =>
          have ih := joinSep_splitOnChar c xs
          rw [hs] at ih
          by_cases hx : x = c
          · subst hx
            simp only [splitOnChar, hs, eq_self_iff_true, if_true]
            rw [joinSep_cons_of_ne_nil _ _ _ (List.cons_ne_nil h t)]
            simp [ih]
          · simp only [splitOnChar, hs, if_neg hx]
            rw [joinSep_cons_cons, ih]

/-- `parts[:-1]` for a single chunk. -/
theorem xpathParts_dropLast_single (ch : List Char) :
    (xpathParts [ch]).dropLast = [qlit ch] := by
  simp [xpathParts]

/-- `parts[:-1]` step for two or more chunks. -/
theorem xpathParts_dropLast_cons (ch ch2 : List Char) (t : List (List Char)) :
    (xpathParts (ch :: ch2 :: t)).dropLast
      = qlit ch :: [dquote, squote, dquote] :: (xpathParts (ch2 :: t)).dropLast := by
  simp [xpathParts, List.dropLast]

/-- The truncated parts list is never empty. -/
theorem xpathParts_dropLast_ne_nil (ch : List Char) (t : List (List Char)) :
    (xpathParts (ch :: t)).dropLast ≠ [] := by
  cases t with
  | nil => simp [xpathParts_dropLast_single]
  | cons ch2 t2 => simp [xpathParts_dropLast_cons]

/-- Fuel bound: the joined parts are long enough to cover two fuel units
per chunk. -/
theorem joinSep_parts_length :
    ∀ chunks : List (List Char), chunks ≠ [] →
      2 * chunks.length ≤ (joinSep [','] ((xpathParts chunks).dropLast)).length + 2
  | [], h => absurd rfl h
  | [ch], _ => by
      simp [xpathParts_dropLast_single, joinSep, qlit]
  | ch :: ch2 :: t, _ => by
      have ih := joinSep_parts_length (ch2 :: t) (by simp)
      rw [xpathParts_dropLast_cons]
      rw [joinSep_cons_of_ne_nil _ _ _ (by simp [xpathParts_dropLast_ne_nil])]
      rw [joinSep_cons_of_ne_nil _ _ _ (xpathParts_dropLast_ne_nil ch2 t)]
      simp only [List.length_append, List.length_cons, List.length_nil, qlit] at ih ⊢
      omega

/-- Parsing the comma-joined quoted parts built by `_xpath_literal`
recovers the single-quote-joined chunks. -/
theorem parseArgs_concat :
    ∀ (chunks : List (List Char)) (fuel : ℕ) (suffix : List Char),
      chunks ≠ [] →
      (∀ ch ∈ chunks, squote ∉ ch) →
      2 * chunks.length ≤ fuel →
      parseArgs fuel
          (joinSep [','] ((xpathParts chunks).dropLast) ++ ')' :: suffix)
        = some (joinSep [squote] chunks, ')' :: suffix)
  | [], _, _, h, _, _ => absurd rfl h
  | [ch], fuel, suffix, _, hnq, hfuel => by
      obtain ⟨f, rfl⟩ : ∃ f, fuel = f + 1 := by
        refine ⟨fuel - 1, ?_⟩
        simp only [List.length_cons, List.length_nil] at hfuel
        omega
      have hch : squote ∉ ch := hnq ch (by simp)
      rw [xpathParts_dropLast_single]
      simp [parseArgs, parseLiteral, takeUntil_append, hch, joinSep, qlit]
  | ch :: ch2 :: t, fuel, suffix, _, hnq, hfuel => by
      obtain ⟨f, rfl⟩ : ∃ f, fuel = f + 2 := by
        refine ⟨fuel - 2, ?_⟩
        simp only [List.length_cons] at hfuel
        omega
      have hch : squote ∉ ch := hnq ch (by simp)
      have ihfuel : 2 * (ch2 :: t).length ≤ f := by
        simp only [List.length_cons] at hfuel ⊢
        omega
      have ih := parseArgs_concat (ch2 :: t) f suffix (by simp)
        (fun x hx => hnq x (by simp [hx])) ihfuel
      rw [xpathParts_dropLast_cons]
      rw [joinSep_cons_of_ne_nil _ _ _
        (by simp [xpathParts_dropLast_ne_nil])]
      rw [joinSep_cons_of_ne_nil _ _ _ (xpathParts_dropLast_ne_nil ch2 t)]
      rw [joinSep_cons_of_ne_nil _ _ _ (List.cons_ne_nil ch2 t)]
      simp only [qlit, List.append_assoc, List.cons_append, List.nil_append]
      have hne1 : ¬ dquote = squote := by decide
      have hne2 : ¬ squote = dquote := by decide
      have hne3 : ¬ (')' : Char) = ',' := by decide
      simp [parseArgs, parseLiteral, takeUntil, takeUntil_append, hch, ih,
        hne1, hne2, hne3]

/-- A quoted literal never passes the `concat(` test of the evaluator. -/
theorem concat_head_ne (q : Char) (hq : ¬ q = 'c') (X : List Char) :
    ((q :: X).take 7) ≠ "concat(".data := by
  intro hcontr
  rw [show (7 : ℕ) = 6 + 1 from rfl, List.take_succ_cons] at hcontr
  rw [show "concat(".data = 'c' :: "oncat(".data from rfl] at hcontr
  injection hcontr with h1 _
  exact hq h1

/-- `_xpath_literal` always produces a syntactically valid XPath
string-literal expression that evaluates to exactly the escaped string. -/
theorem evalXPathLiteral_xpathLiteral (s : List Char) :
    evalXPathLiteral (xpathLiteralL s) = some s := by
  by_cases hsq : squote ∈ s
  · by_cases hdq : dquote ∈ s
    · rw [xpathLiteralL]
      simp only [hsq, hdq, not_true_eq_false, if_false]
      have hchunks := splitOnChar_ne_nil squote s
      have htake : (("concat(".data
          ++ (joinSep [','] ((xpathParts (splitOnChar squote s)).dropLast)
              ++ [')'])).take 7) = "concat(".data := by
        rw [show (7 : ℕ) = ("concat(".data).length from rfl, List.take_left]
      have hdrop : (("concat(".data
          ++ (joinSep [','] ((xpathParts (splitOnChar squote s)).dropLast)
              ++ [')'])).drop 7)
          = joinSep [','] ((xpathParts (splitOnChar squote s)).dropLast)
            ++ [')'] := by
        rw [show (7 : ℕ) = ("concat(".data).length from rfl, List.drop_left]
      have hfuel : 2 * (splitOnChar squote s).length
          ≤ ("concat(".data
              ++ (joinSep [','] ((xpathParts (splitOnChar squote s)).dropLast)
                  ++ [')'])).length + 1 := by
        have hb := joinSep_parts_length (splitOnChar squote s) hchunks
        have h7 : ("concat(".data).length = 7 := rfl
        have h1 : ([')'] : List Char).length = 1 := rfl
        simp only [List.length_append, h7, h1]
        omega
      have hargs := parseArgs_concat (splitOnChar squote s) _ [] hchunks
        (splitOnChar_not_mem squote s) hfuel
      rw [evalXPathLiteral, List.append_assoc, if_pos htake, hdrop]
      rw [show (joinSep [','] ((xpathParts (splitOnChar squote s)).dropLast)
        ++ [')']) = joinSep [','] ((xpathParts (splitOnChar squote s)).dropLast)
        ++ ')' :: [] from rfl]
      rw [hargs]
      simp [joinSep_splitOnChar]
    · rw [xpathLiteralL]
      simp only [hsq, hdq, not_true_eq_false, if_false, not_false_eq_true,
        if_true]
      rw [show [dquote] ++ s ++ [dquote] = dquote :: (s ++ [dquote]) from
        by simp]
      rw [evalXPathLiteral, if_neg (concat_head_ne dquote (by decide) _)]
      have htu := takeUntil_append dquote s [] hdq
      have hne1 : ¬ dquote = squote := by decide
      simp [parseLiteral, htu, hne1]
  · rw [xpathLiteralL]
    simp only [hsq, not_false_eq_true, if_true]
    rw [show [squote] ++ s ++ [squote] = squote :: (s ++ [squote]) from
      by simp]
    rw [evalXPathLiteral, if_neg (concat_head_ne squote (by decide) _)]
    have htu := takeUntil_append squote s [] hsq
    simp [parseLiteral, htu]

/-- Brace-free text passes through the format scan unchanged. -/
theorem pyFormatAux_no_hole (kw : List (List Char × List Char)) :
    ∀ (suf : List Char) (fuel : ℕ), lbrace ∉ suf → suf.length ≤ fuel →
      pyFormatAux kw fuel suf = some suf
  | [], fuel, _, _ => by cases fuel <;> simp [pyFormatAux]
  | c :: suf, fuel, hb, hfuel => by
      obtain ⟨f, rfl⟩ : ∃ f, fuel = f + 1 := by
        refine ⟨fuel - 1, ?_⟩
        simp only [List.length_cons] at hfuel
        omega
      have hc : ¬ c = lbrace := fun h => hb (by simp [h])
      have hrec := pyFormatAux_no_hole kw suf f (fun h => hb (by simp [h]))
        (by simp only [List.length_cons] at hfuel; omega)
      simp [pyFormatAux, hc, hrec]

/-- A single `{key}` placeholder surrounded by brace-free text formats to
the text with the bound value substituted. -/
theorem pyFormatAux_single_hole (kw : List (List Char × List Char)) :
    ∀ (pre : List Char) (fuel : ℕ) (key suf v : List Char),
      lbrace ∉ pre → rbrace ∉ key → lbrace ∉ suf →
      lookupKw key kw = some v →
      pre.length + 1 + suf.length ≤ fuel →
      pyFormatAux kw fuel (pre ++ lbrace :: (key ++ rbrace :: suf))
        = some (pre ++ v ++ suf)
  | [], fuel, key, suf, v, _, hkey, hsuf, hlk, hfuel => by
      obtain ⟨f, rfl⟩ : ∃ f, fuel = f + 1 := by
        refine ⟨fuel - 1, ?_⟩
        simp only [List.length_nil] at hfuel
        omega
      have htu := takeUntil_append rbrace key suf hkey
      have hrest := pyFormatAux_no_hole kw suf f hsuf
        (by simp only [List.length_nil] at hfuel; omega)
      simp [pyFormatAux, htu, hlk, hrest]
  | c :: pre, fuel, key, suf, v, hpre, hkey, hsuf, hlk, hfuel => by
      obtain ⟨f, rfl⟩ : ∃ f, fuel = f + 1 := by
        refine ⟨fuel - 1, ?_⟩
        simp only [List.length_cons] at hfuel
        omega
      have hc : ¬ c = lbrace := fun h => hpre (by simp [h])
      have hrec := pyFormatAux_single_hole kw pre f key suf v
        (fun h => hpre (by simp [h])) hkey hsuf hlk
        (by simp only [List.length_cons] at hfuel; omega)
      simp [pyFormatAux, hc, hrec]

/-- C7: `_xpath_literal` escapes every string — with single quotes, double
quotes, or both — into a syntactically valid XPath string-literal
expression that evaluates back to exactly that string; `format` on an
XPath-strategy locator substitutes each value through `_xpath_literal`
into the template, and on any non-XPath strategy through the attribute
value escaper `_css_attr_value`. -/
theorem locator_format_escaping :
    (∀ s : List Char, evalXPathLiteral (xpathLiteralL s) = some s) ∧
    (∀ (pre key suf v : List Char) (desc : Option String)
        (parent : Option Locator),
        lbrace ∉ pre → rbrace ∉ key → lbrace ∉ suf →
        (Locator.mk By.XPATH
            (String.mk (pre ++ lbrace :: (key ++ rbrace :: suf)))
            desc parent).format [(key, v)]
          = some (.mk By.XPATH (String.mk (pre ++ xpathLiteralL v ++ suf))
              desc parent)) ∧
    (∀ (bystr : String) (pre key suf v : List Char) (desc : Option String)
        (parent : Option Locator),
        bystr ≠ By.XPATH → lbrace ∉ pre → rbrace ∉ key → lbrace ∉ suf →
        (Locator.mk bystr
            (String.mk (pre ++ lbrace :: (key ++ rbrace :: suf)))
            desc parent).format [(key, v)]
          = some (.mk bystr (String.mk (pre ++ cssAttrValueL v ++ suf))
              desc parent)) := by
  refine ⟨evalXPathLiteral_xpathLiteral, ?_, ?_⟩
  · intro pre key suf v desc parent hpre hkey hsuf
    have hlk : lookupKw key [(key, xpathLiteralL v)] = some (xpathLiteralL v) := by
      simp [lookupKw]
    have hfmt := pyFormatAux_single_hole [(key, xpathLiteralL v)] pre
      ((pre ++ lbrace :: (key ++ rbrace :: suf)).length) key suf
      (xpathLiteralL v) hpre hkey hsuf hlk
      (by simp only [List.length_append, List.length_cons]; omega)
    simp only [List.length_append, List.length_cons, List.append_assoc] at hfmt
    simp [Locator.format, Locator.by_str, Locator.value, Locator.desc,
      Locator.parent, pyFormat, hfmt]
  · intro bystr pre key suf v desc parent hby hpre hkey hsuf
    have hlk : lookupKw key [(key, cssAttrValueL v)] = some (cssAttrValueL v) := by
      simp [lookupKw]
    have hfmt := pyFormatAux_single_hole [(key, cssAttrValueL v)] pre
      ((pre ++ lbrace :: (key ++ rbrace :: suf)).length) key suf
      (cssAttrValueL v) hpre hkey hsuf hlk
      (by simp only [List.length_append, List.length_cons]; omega)
    simp only [List.length_append, List.length_cons, List.append_assoc] at hfmt
    simp [Locator.format, Locator.by_str, Locator.value, Locator.desc,
      Locator.parent, pyFormat, hfmt, hby]

/-- Closed instance of `locator_format_escaping`, exercising the spec's
example: formatting `//a[@id={id}]` with the value `x'y` produces the
double-quoted literal embedding `x'y`, which evaluates back to `x'y`; a
CSS-strategy locator escapes a double quote with a backslash. -/
theorem locator_format_escaping_witness :
    (Locator.mk By.XPATH "//a[@id={id}]" none none).format
        [("id".data, ['x', squote, 'y'])]
      = some (Locator.mk By.XPATH
          (String.mk ("//a[@id=".data
            ++ ([dquote] ++ ['x', squote, 'y'] ++ [dquote]) ++ "]".data))
          none none) ∧
    evalXPathLiteral (xpathLiteralL ['x', squote, 'y'])
      = some ['x', squote, 'y'] ∧
    (Locator.mk By.CSS_SELECTOR "a[id={id}]" none none).format
        [("id".data, ['x', dquote, 'y'])]
      = some (Locator.mk By.CSS_SELECTOR
          (String.mk ("a[id=".data ++ ['x', bslash, dquote, 'y'] ++ "]".data))
          none none) := by
  refine ⟨?_, locator_format_escaping.1 ['x', squote, 'y'], ?_⟩
  · have h := locator_format_escaping.2.1 "//a[@id=".data "id".data "]".data
      ['x', squote, 'y'] none none (by decide) (by decide) (by decide)
    have e1 : String.mk ("//a[@id=".data
        ++ lbrace :: ("id".data ++ rbrace :: "]".data)) = "//a[@id={id}]" := rfl
    have e2 : xpathLiteralL ['x', squote, 'y']
        = [dquote] ++ ['x', squote, 'y'] ++ [dquote] := rfl
    rw [e1, e2] at h
    exact h
  · have h := locator_format_escaping.2.2 By.CSS_SELECTOR "a[id=".data
      "id".data "]".data ['x', dquote, 'y'] none none (by decide) (by decide)
      (by decide) (by decide)
    have e1 : String.mk ("a[id=".data
        ++ lbrace :: ("id".data ++ rbrace :: "]".data)) = "a[id={id}]" := rfl
    have e2 : cssAttrValueL ['x', dquote, 'y']
        = ['x', bslash, dquote, 'y'] := rfl
    rw [e1, e2] at h
    exact h

end SeleniumFw
